import Mathlib

/-!
Verification of the MCQs-Generator core (types.ts, App component, geminiService.ts)
against its natural-language specification.

The data model, the Gemini service post-processing, the App state-machine handlers
and the CSV export are embedded shallowly.  The external generation capability is
modelled as an oracle input: each service function takes the capability's outcome
(transport failure, unparsable response text, or a parsed value) as an explicit
argument and performs exactly the post-processing the source performs.
-/

namespace MCQGen

/-- Application status enum from types.ts. -/
inductive AppStatus where
  | IDLE
  | ANALYZING
  | READY_TO_GENERATE
  | GENERATING
  | COMPLETED
deriving DecidableEq, Repr

/-- The four option texts of an MCQ (types.ts, `MCQ.options`). -/
structure Options where
  A : String
  B : String
  C : String
  D : String
deriving DecidableEq, Repr

/-- The literal union 'A' | 'B' | 'C' | 'D' from types.ts. -/
inductive Answer where
  | A
  | B
  | C
  | D
deriving DecidableEq, Repr

/-- The string the source stores and exports for a correct answer. -/
def answerStr : Answer → String
  | .A => "A"
  | .B => "B"
  | .C => "C"
  | .D => "D"

/-- The literal union 'Easy' | 'Moderate' | 'Challenging' from types.ts. -/
inductive Difficulty where
  | Easy
  | Moderate
  | Challenging
deriving DecidableEq, Repr

/-- MCQ record from types.ts. -/
structure MCQ where
  id : String
  partName : String
  chapterTitle : String
  question : String
  options : Options
  correctAnswer : Answer
  topic : String
  difficulty : Difficulty
  explanation : Option String
deriving DecidableEq, Repr

/-- Chapter record from types.ts. -/
structure Chapter where
  title : String
  topics : List String
deriving DecidableEq, Repr

/-- Part record from types.ts. -/
structure Part where
  name : String
  chapterTitles : List String
deriving DecidableEq, Repr

/-- TextbookAnalysis record from types.ts. -/
structure TextbookAnalysis where
  chapters : List Chapter
  parts : List Part
  totalTopics : Int
  summary : String
deriving DecidableEq, Repr

/-- FileData record from types.ts: the base64 field holds the data-URL string
produced by FileReader.readAsDataURL. -/
structure FileData where
  name : String
  type : String
  base64 : String
deriving DecidableEq, Repr

/-- A record of the part-generation response as parsed from JSON, before the
service stamps `id` and `partName` (the declared response schema has exactly
these fields). -/
structure RawMCQ where
  chapterTitle : String
  question : String
  options : Options
  correctAnswer : Answer
  topic : String
  difficulty : Difficulty
  explanation : Option String
deriving DecidableEq, Repr

/-- Decimal digit characters of a natural number, as JavaScript template
interpolation renders a number inside a string. -/
def natRepr (n : Nat) : List Char :=
  if n < 10 then [Nat.digitChar n]
  else natRepr (n / 10) ++ [Nat.digitChar (n % 10)]
termination_by n
decreasing_by exact Nat.div_lt_self (by omega) (by omega)

/-- Character-list form of the id template string from geminiService.ts:
the template is part-, then the part index, then -q-, then the position. -/
def mkIdL (partIndex i : Nat) : List Char :=
  ['p', 'a', 'r', 't', '-'] ++ natRepr partIndex ++ ['-', 'q', '-'] ++ natRepr i

/-- The session-unique id stamped on an MCQ by generatePartMCQs. -/
def mkId (partIndex i : Nat) : String :=
  ⟨mkIdL partIndex i⟩

/-- JavaScript String.prototype.split with separator comma, on character lists:
the empty string yields one empty segment, and every comma starts a new segment. -/
def splitComma : List Char → List (List Char)
  | [] => [[]]
  | c :: cs =>
    match splitComma cs with
    | [] => [[]]
    | seg :: rest => if c = ',' then [] :: seg :: rest else (c :: seg) :: rest

/-- Payload extraction from geminiService.ts analyzeTextbook: the expression
splits the base64 field on commas, takes element 1, and falls back to the whole
string when that element is undefined or the empty string. -/
def extractPayloadL (l : List Char) : List Char :=
  match (splitComma l).get? 1 with
  | none => l
  | some seg => if seg = [] then l else seg

/-- String form of extractPayloadL. -/
def extractPayload (s : String) : String :=
  ⟨extractPayloadL s.data⟩

/-- The inlineData blocks built by analyzeTextbook from the uploaded files:
one block per file pairing the MIME type with the extracted payload. -/
def contentBlocks (files : List FileData) : List (String × String) :=
  files.map fun f => (f.type, extractPayload f.base64)

/-- Modelled from the spec: the spec describes the emitted payload as the
encoded content with the transport-encoding prefix up to and including the
separator removed.  This removes everything up to and including the first comma
when a comma is present, keeping the string unchanged otherwise. -/
def dropThroughFirstComma : List Char → Option (List Char)
  | [] => none
  | c :: cs => if c = ',' then some cs else dropThroughFirstComma cs

/-- Modelled from the spec: the payload of a block as the spec words describe it. -/
def specPayload (s : String) : String :=
  match dropThroughFirstComma s.data with
  | none => s
  | some r => ⟨r⟩

/-- The message JSON.parse raises on unparsable text, as the service surfaces it. -/
def jsonParseErrorMsg : String := "Unexpected token in JSON"

/-- The message raised when analysis.parts[partIndex] is undefined and its
name property is read. -/
def undefinedPartErrorMsg : String :=
  "Cannot read properties of undefined"

/-- Outcome of a capability call as seen by the service after the transport:
either the call itself failed with a message, or it returned response text,
which either fails to parse as JSON or parses to a value of the declared shape. -/
def CapOutcome (α : Type) : Type := Except String (Option α)

/-- analyzeTextbook from geminiService.ts: builds the content blocks, issues the
request, and returns JSON.parse of the response text.  No validation of the
parsed value is performed; the only failures are a failed call and unparsable
response text. -/
def analyzeTextbook (files : List FileData) (outcome : CapOutcome TextbookAnalysis) :
    Except String TextbookAnalysis :=
  let _blocks := contentBlocks files
  match outcome with
  | .error e => .error e
  | .ok none => .error jsonParseErrorMsg
  | .ok (some a) => .ok a

/-- Schema invariants stated in the spec data model: exactly 4 parts, and every
chapterTitle referenced by a part resolves to a chapter of the analysis. -/
def analysisInvariants (a : TextbookAnalysis) : Prop :=
  a.parts.length = 4 ∧
  ∀ p ∈ a.parts, ∀ t ∈ p.chapterTitles, ∃ c ∈ a.chapters, c.title = t

instance (a : TextbookAnalysis) : Decidable (analysisInvariants a) := by
  unfold analysisInvariants
  infer_instance

/-- The chapter subset geminiService.ts embeds in the part-generation prompt:
the chapters of the analysis whose title is included in the part's
chapterTitles list. -/
def promptChapters (analysis : TextbookAnalysis) (currentPart : Part) : List Chapter :=
  analysis.chapters.filter fun ch => currentPart.chapterTitles.contains ch.title

/-- The per-record stamping in generatePartMCQs: spread of the parsed record
plus an id from the part index and position, plus the resolved part name. -/
def stampOne (partIndex : Nat) (partName : String) (i : Nat) (m : RawMCQ) : MCQ :=
  { id := mkId partIndex i
    partName := partName
    chapterTitle := m.chapterTitle
    question := m.question
    options := m.options
    correctAnswer := m.correctAnswer
    topic := m.topic
    difficulty := m.difficulty
    explanation := m.explanation }

/-- rawMcqs.map with its index argument, starting at position i. -/
def stampFrom (partIndex : Nat) (partName : String) (i : Nat) : List RawMCQ → List MCQ
  | [] => []
  | m :: rest => stampOne partIndex partName i m :: stampFrom partIndex partName (i + 1) rest

/-- The full post-processing of a parsed part-generation response. -/
def stampMCQs (partIndex : Nat) (partName : String) (raws : List RawMCQ) : List MCQ :=
  stampFrom partIndex partName 0 raws

/-- generatePartMCQs from geminiService.ts: reads analysis.parts[partIndex]
(a TypeError surfaces when it is undefined), filters the chapters for the
prompt, issues the request, parses the response, and stamps each record with
an id and the part name.  existingMCQs only feeds the prompt text. -/
def generatePartMCQs (analysis : TextbookAnalysis) (partIndex : Nat)
    (existingMCQs : List MCQ) (outcome : CapOutcome (List RawMCQ)) :
    Except String (List MCQ) :=
  match analysis.parts.get? partIndex with
  | none => .error undefinedPartErrorMsg
  | some currentPart =>
    let _chaptersForPrompt := promptChapters analysis currentPart
    let _prior := existingMCQs
    match outcome with
    | .error e => .error e
    | .ok none => .error jsonParseErrorMsg
    | .ok (some raws) => .ok (stampMCQs partIndex currentPart.name raws)

/-- The App component's session state: the useState fields of App.tsx, plus two
instrumentation fields recording the capability calls currently in flight
(pendingA counts analysis calls; pendingG lists the captured currentPartIndex of
each generation call).  The source has no such fields; they model the awaited
promises so that the number of concurrently active calls can be stated. -/
structure SessionState where
  status : AppStatus
  files : List FileData
  analysis : Option TextbookAnalysis
  mcqs : List MCQ
  currentPartIndex : Nat
  error : Option String
  isGenerating : Bool
  pendingA : Nat
  pendingG : List Nat
deriving DecidableEq, Repr

/-- The initial useState values of App.tsx. -/
def initState : SessionState :=
  { status := .IDLE, files := [], analysis := none, mcqs := [], currentPartIndex := 0,
    error := none, isGenerating := false, pendingA := 0, pendingG := [] }

/-- startAnalysis up to its await point: the guard returns early when no file is
present; otherwise status becomes ANALYZING, the error is cleared, and an
analysis call is issued.  The guard does not inspect status. -/
def startAnalysisBegin (s : SessionState) : SessionState :=
  if s.files = [] then s
  else { s with status := .ANALYZING, error := none, pendingA := s.pendingA + 1 }

/-- Completion handler of a successful analysis call. -/
def startAnalysisFinishOk (a : TextbookAnalysis) (s : SessionState) : SessionState :=
  { s with analysis := some a, status := .READY_TO_GENERATE, pendingA := s.pendingA - 1 }

/-- Catch branch of startAnalysis: record the message, return to IDLE. -/
def startAnalysisFinishErr (msg : String) (s : SessionState) : SessionState :=
  { s with
    error := some (if msg = "" then "Failed to analyze textbook." else msg),
    status := .IDLE, pendingA := s.pendingA - 1 }

/-- generateNextPart up to its await point: the guard returns early when the
analysis is null or currentPartIndex is at least 4; otherwise isGenerating is
set, status becomes GENERATING, the error is cleared, and a generation call is
issued capturing the current part index.  The guard does not inspect status. -/
def generateNextPartBegin (s : SessionState) : SessionState :=
  if s.analysis = none ∨ 4 ≤ s.currentPartIndex then s
  else { s with
    isGenerating := true, status := .GENERATING, error := none,
    pendingG := s.pendingG ++ [s.currentPartIndex] }

/-- Completion handler of a successful generation call that captured index k:
append the batch, advance to k+1, move to COMPLETED when the new index reaches
4 and back to READY_TO_GENERATE otherwise. -/
def generateNextPartFinishOk (k : Nat) (batch : List MCQ) (s : SessionState) : SessionState :=
  { s with
    mcqs := s.mcqs ++ batch, currentPartIndex := k + 1,
    status := if 4 ≤ k + 1 then .COMPLETED else .READY_TO_GENERATE,
    isGenerating := false, pendingG := s.pendingG.tail }

/-- Catch branch of generateNextPart for the call that captured index k. -/
def generateNextPartFinishErr (k : Nat) (msg : String) (s : SessionState) : SessionState :=
  { s with
    error := some (if msg = "" then "Failed to generate Part " ++ ⟨natRepr (k + 1)⟩ ++ "." else msg),
    status := .READY_TO_GENERATE, isGenerating := false, pendingG := s.pendingG.tail }

/-- One complete startAnalysis round-trip (begin through finish), meaningful
when no other call interleaves; the analysis stage outcome is the oracle input. -/
def startAnalysis (outcome : CapOutcome TextbookAnalysis) (s : SessionState) : SessionState :=
  if s.files = [] then s
  else
    match analyzeTextbook s.files outcome with
    | .ok a => { s with analysis := some a, status := .READY_TO_GENERATE, error := none }
    | .error msg =>
      { s with
        error := some (if msg = "" then "Failed to analyze textbook." else msg),
        status := .IDLE }

/-- One complete generateNextPart round-trip (begin through finish), meaningful
when no other call interleaves; the generation stage outcome is the oracle input. -/
def generateNextPart (outcome : CapOutcome (List RawMCQ)) (s : SessionState) : SessionState :=
  match s.analysis with
  | none => s
  | some a =>
    if 4 ≤ s.currentPartIndex then s
    else
      match generatePartMCQs a s.currentPartIndex s.mcqs outcome with
      | .ok newMcqs =>
        { s with
          mcqs := s.mcqs ++ newMcqs, currentPartIndex := s.currentPartIndex + 1,
          status := if 4 ≤ s.currentPartIndex + 1 then .COMPLETED else .READY_TO_GENERATE,
          error := none, isGenerating := false }
      | .error msg =>
        { s with
          error := some (if msg = "" then
            "Failed to generate Part " ++ ⟨natRepr (s.currentPartIndex + 1)⟩ ++ "." else msg),
          status := .READY_TO_GENERATE, isGenerating := false }

/-- One driver operation with its capability outcome. -/
inductive GenOp where
  | analyze (outcome : CapOutcome TextbookAnalysis)
  | generate (outcome : CapOutcome (List RawMCQ))

/-- Apply one complete operation to the session state. -/
def applyOp (op : GenOp) (s : SessionState) : SessionState :=
  match op with
  | .analyze outcome => startAnalysis outcome s
  | .generate outcome => generateNextPart outcome s

/-- Run a whole interleaving of complete operations. -/
def runOps (ops : List GenOp) (s : SessionState) : SessionState :=
  ops.foldl (fun s op => applyOp op s) s

/-- Run a sequence of generateNextPart calls with the given outcomes. -/
def runGen (outcomes : List (CapOutcome (List RawMCQ))) (s : SessionState) : SessionState :=
  outcomes.foldl (fun s outcome => generateNextPart outcome s) s

/-- The session transitions available through the rendered UI.  A click on the
analyze button requires the IDLE upload panel (rendered only when status is
IDLE, with the button present only when a file is listed); a click on the
generate button requires the dashboard (status neither IDLE nor ANALYZING nor
COMPLETED) and the button not disabled (isGenerating false); file input is
rendered only on the IDLE panel; and an in-flight call of either stage can
complete with success or failure at any time. -/
inductive UIStep : SessionState → SessionState → Prop
  | upload (fs : List FileData) {s : SessionState} :
      s.status = AppStatus.IDLE →
      UIStep s { s with files := s.files ++ fs }
  | clickAnalyze {s : SessionState} :
      s.status = AppStatus.IDLE → s.files ≠ [] →
      UIStep s (startAnalysisBegin s)
  | analysisOk (a : TextbookAnalysis) {s : SessionState} :
      1 ≤ s.pendingA →
      UIStep s (startAnalysisFinishOk a s)
  | analysisErr (msg : String) {s : SessionState} :
      1 ≤ s.pendingA →
      UIStep s (startAnalysisFinishErr msg s)
  | clickGenerate {s : SessionState} :
      (s.status = AppStatus.READY_TO_GENERATE ∨ s.status = AppStatus.GENERATING) →
      s.isGenerating = false →
      UIStep s (generateNextPartBegin s)
  | genOk (batch : List MCQ) (k : Nat) (rest : List Nat) {s : SessionState} :
      s.pendingG = k :: rest →
      UIStep s (generateNextPartFinishOk k batch s)
  | genErr (msg : String) (k : Nat) (rest : List Nat) {s : SessionState} :
      s.pendingG = k :: rest →
      UIStep s (generateNextPartFinishErr k msg s)

/-- Session states reachable from the initial render through the UI. -/
inductive Reachable : SessionState → Prop
  | base : Reachable initState
  | step {s s' : SessionState} : Reachable s → UIStep s s' → Reachable s'

/-- Concurrency invariant: at most one capability call in flight, analysis
calls only while ANALYZING, generation calls only while GENERATING with the
button disabled. -/
def ConcInv (s : SessionState) : Prop :=
  s.pendingA + s.pendingG.length ≤ 1 ∧
  (s.pendingA ≠ 0 → s.status = AppStatus.ANALYZING) ∧
  (s.pendingG ≠ [] → s.status = AppStatus.GENERATING ∧ s.isGenerating = true)

/-- The global replace of a double-quote by two double-quotes from convertToCSV. -/
def escapeQuotesL : List Char → List Char
  | [] => []
  | c :: cs => if c = '"' then '"' :: '"' :: escapeQuotesL cs else c :: escapeQuotesL cs

/-- A field as convertToCSV emits the question and option fields: the text with
doubled quotes, wrapped in quotes. -/
def quoteField (s : String) : String :=
  ⟨'"' :: escapeQuotesL s.data ++ ['"']⟩

/-- The header names of convertToCSV. -/
def csvHeaders : List String :=
  ["Part", "Chapter", "Question", "Option A", "Option B", "Option C", "Option D",
   "Correct Answer"]

/-- The eight emitted fields of one CSV row, exactly as convertToCSV builds the
row array: partName and chapterTitle raw, question and the four options quoted
and escaped, and the correct answer raw. -/
def csvRowFields (q : MCQ) : List String :=
  [q.partName, q.chapterTitle, quoteField q.question, quoteField q.options.A,
   quoteField q.options.B, quoteField q.options.C, quoteField q.options.D,
   answerStr q.correctAnswer]

/-- JavaScript Array.prototype.join with a one-character separator, on
character lists. -/
def joinSepL (sep : Char) : List (List Char) → List Char
  | [] => []
  | [x] => x
  | x :: y :: rest => x ++ sep :: joinSepL sep (y :: rest)

/-- String form of joinSepL. -/
def joinSep (sep : Char) (l : List String) : String :=
  ⟨joinSepL sep (l.map String.data)⟩

/-- One row of the CSV export: the row array joined with commas. -/
def csvRow (q : MCQ) : String :=
  joinSep ',' (csvRowFields q)

/-- convertToCSV from the App component: the joined header row followed by one
joined row per question, all joined with newlines. -/
def convertToCSV (questions : List MCQ) : String :=
  joinSep '\n' (joinSep ',' csvHeaders :: questions.map csvRow)

/-- Characters that need no CSV quoting: no double-quote, comma or newline. -/
def plainChar (c : Char) : Prop :=
  c ≠ '"' ∧ c ≠ ',' ∧ c ≠ '\n'

instance (c : Char) : Decidable (plainChar c) := by
  unfold plainChar; infer_instance

/-- A string of plain characters only. -/
def plainField (s : String) : Prop :=
  ∀ c ∈ s.data, plainChar c

instance (s : String) : Decidable (plainField s) := by
  unfold plainField; infer_instance

/-- The original field values of one MCQ in CSV column order. -/
def origFields (q : MCQ) : List String :=
  [q.partName, q.chapterTitle, q.question, q.options.A, q.options.B, q.options.C,
   q.options.D, answerStr q.correctAnswer]

/-- Modelled from the spec: the repository contains no CSV reader, and the spec
round-trip property speaks of parsing the exported CSV, so a standard CSV
parser is modelled here.  This reads the body of a quoted field after its
opening quote: a doubled quote is an escaped quote, a single quote closes the
field, and the rest is returned. -/
def parseQuotedTail : List Char → List Char × List Char
  | [] => ([], [])
  | [c] => if c = '"' then ([], []) else ([c], [])
  | c :: c2 :: cs =>
    if c = '"' then
      if c2 = '"' then ('"' :: (parseQuotedTail cs).1, (parseQuotedTail cs).2)
      else ([], c2 :: cs)
    else (c :: (parseQuotedTail (c2 :: cs)).1, (parseQuotedTail (c2 :: cs)).2)

/-- Modelled from the spec: an unquoted CSV field runs to the next comma,
newline or end of input, the delimiter staying in the rest. -/
def parseUnquoted : List Char → List Char × List Char
  | [] => ([], [])
  | c :: cs =>
    if c = ',' ∨ c = '\n' then ([], c :: cs)
    else (c :: (parseUnquoted cs).1, (parseUnquoted cs).2)

/-- Modelled from the spec: one CSV field, quoted when it opens with a quote. -/
def parseField (l : List Char) : List Char × List Char :=
  match l with
  | [] => ([], [])
  | c :: cs => if c = '"' then parseQuotedTail cs else parseUnquoted (c :: cs)

/-- Modelled from the spec: the fields of one CSV record, fuelled by the number
of fields still allowed; returns the fields and the input after the record's
terminating newline. -/
def parseRecAux : Nat → List Char → List String × List Char
  | 0, l => ([], l)
  | fuel + 1, l =>
    match (parseField l).2 with
    | [] => ([⟨(parseField l).1⟩], [])
    | c :: r2 =>
      if c = ',' then
        ((⟨(parseField l).1⟩ : String) :: (parseRecAux fuel r2).1, (parseRecAux fuel r2).2)
      else if c = '\n' then ([⟨(parseField l).1⟩], r2)
      else ([⟨(parseField l).1⟩], c :: r2)

/-- Modelled from the spec: all records of a CSV document, fuelled by the
number of records still allowed. -/
def parseRowsAux : Nat → List Char → List (List String)
  | 0, _ => []
  | _ + 1, [] => []
  | fuel + 1, c :: cs =>
    (parseRecAux ((c :: cs).length + 1) (c :: cs)).1 ::
      parseRowsAux fuel (parseRecAux ((c :: cs).length + 1) (c :: cs)).2

/-- Modelled from the spec: parse a CSV document into its records' fields. -/
def parseCSV (s : String) : List (List String) :=
  parseRowsAux (s.data.length + 1) s.data

/-- Relation between an original field value and the character sequence the CSV
writer emits for it: either the raw characters of a plain value, or the quoted
and escaped form. -/
inductive FieldRep : String → List Char → Prop
  | plain (s : String) : plainField s → FieldRep s s.data
  | quoted (s : String) : FieldRep s ('"' :: escapeQuotesL s.data ++ ['"'])

/-- Relation between the original field values of a record and the character
sequence the CSV writer emits for the whole record. -/
def RowRep (origs : List String) (rowChars : List Char) : Prop :=
  ∃ reps, List.Forall₂ FieldRep origs reps ∧ 2 ≤ reps.length ∧
    rowChars = joinSepL ',' reps

/-- For uniqueness of ids: all accumulated ids are distinct, the part index is
at most 4, and every accumulated id encodes a part index below the current one. -/
def IdOk (s : SessionState) : Prop :=
  (s.mcqs.map MCQ.id).Nodup ∧ s.currentPartIndex ≤ 4 ∧
  ∀ m ∈ s.mcqs, ∃ k j, k < s.currentPartIndex ∧ m.id = mkId k j

/-- Number of MCQ records delivered by an outcome (0 for a failed call). -/
def okBatchSize : CapOutcome (List RawMCQ) → Nat
  | .ok (some raws) => raws.length
  | .ok none => 0
  | .error _ => 0

/-- Whether an outcome delivers a parsed batch. -/
def isOkSome : CapOutcome (List RawMCQ) → Bool
  | .ok (some _) => true
  | .ok none => false
  | .error _ => false

/-- Concrete uploaded file with a data-URL base64 field. -/
def exFile : FileData :=
  { name := "book.pdf", type := "application/pdf",
    base64 := "data:application/pdf;base64,QUJD" }

/-- Concrete chapter. -/
def exChapter1 : Chapter := { title := "Algebra", topics := ["Sets"] }

/-- Concrete chapter. -/
def exChapter2 : Chapter := { title := "Geometry", topics := ["Angles"] }

/-- Concrete well-formed analysis with exactly four parts. -/
def exAnalysis : TextbookAnalysis :=
  { chapters := [exChapter1, exChapter2],
    parts :=
      [{ name := "Part I", chapterTitles := ["Algebra"] },
       { name := "Part II", chapterTitles := ["Geometry"] },
       { name := "Part III", chapterTitles := ["Algebra"] },
       { name := "Part IV", chapterTitles := ["Geometry"] }],
    totalTopics := 2, summary := "ok" }

/-- Session right after one file upload. -/
def exState0 : SessionState := { initState with files := [exFile] }

/-- Session after a successful analysis round-trip. -/
def exReady : SessionState := startAnalysis (.ok (some exAnalysis)) exState0

/-- Session with a generation call in flight. -/
def exGenState : SessionState := generateNextPartBegin exReady

/-- Session with an analysis call in flight. -/
def exAnState : SessionState := startAnalysisBegin exState0

/-- Concrete analysis violating both schema invariants: five parts, and a
chapterTitle reference that resolves to no chapter. -/
def exBadAnalysis : TextbookAnalysis :=
  { chapters := [exChapter1],
    parts :=
      [{ name := "P1", chapterTitles := ["Algebra"] },
       { name := "P2", chapterTitles := ["Missing Chapter"] },
       { name := "P3", chapterTitles := ["Algebra"] },
       { name := "P4", chapterTitles := ["Algebra"] },
       { name := "P5", chapterTitles := ["Algebra"] }],
    totalTopics := 1, summary := "bad" }

/-- Concrete option texts. -/
def exOpts : Options := { A := "1", B := "2", C := "3", D := "4" }

/-- Concrete MCQ whose partName contains a double-quote. -/
def exQBad : MCQ :=
  { id := "part-0-q-0", partName := "He said \"hi\"", chapterTitle := "Ch1",
    question := "Q?", options := exOpts, correctAnswer := .A, topic := "t",
    difficulty := .Easy, explanation := none }

/-- Concrete MCQ with embedded quotes in the question and an option. -/
def exQGood : MCQ :=
  { id := "part-0-q-0", partName := "Part I", chapterTitle := "Algebra",
    question := "She said \"x=2\"", options :=
      { A := "a \"quoted\" option", B := "2,5", C := "3", D := "4" },
    correctAnswer := .B, topic := "t", difficulty := .Moderate,
    explanation := none }

/-- Concrete parsed generation record. -/
def exRaw1 : RawMCQ :=
  { chapterTitle := "Algebra", question := "What is 2+2?", options := exOpts,
    correctAnswer := .D, topic := "addition", difficulty := .Easy,
    explanation := none }

/-- Concrete parsed generation record. -/
def exRaw2 : RawMCQ :=
  { chapterTitle := "Algebra", question := "What is 3+3?", options := exOpts,
    correctAnswer := .A, topic := "addition", difficulty := .Moderate,
    explanation := some "sum" }

/-- Concrete file whose content is a data-URL header followed by an empty
payload. -/
def exFileEmptyPayload : FileData :=
  { name := "a.txt", type := "text/plain", base64 := "data:text/plain;base64," }

theorem natRepr_lt (n : Nat) (h : n < 10) : natRepr n = [Nat.digitChar n] := by
  unfold natRepr
  simp [h]

theorem natRepr_ge (n : Nat) (h : ¬ n < 10) :
    natRepr n = natRepr (n / 10) ++ [Nat.digitChar (n % 10)] := by
  conv_lhs => unfold natRepr
  simp [h]

theorem natRepr_ne_nil (n : Nat) : natRepr n ≠ [] := by
  by_cases h : n < 10
  · rw [natRepr_lt n h]; simp
  · rw [natRepr_ge n h]; simp

theorem digitChar_inj_ball : ∀ a < 10, ∀ b < 10,
    Nat.digitChar a = Nat.digitChar b → a = b := by decide

theorem digitChar_inj (a b : Nat) (ha : a < 10) (hb : b < 10)
    (h : Nat.digitChar a = Nat.digitChar b) : a = b :=
  digitChar_inj_ball a ha b hb h

theorem natRepr_inj (n : Nat) : ∀ m : Nat, natRepr n = natRepr m → n = m := by
  induction n using Nat.strong_induction_on with
  | _ n ih =>
    intro m h
    by_cases hn : n < 10
    · by_cases hm : m < 10
      · rw [natRepr_lt n hn, natRepr_lt m hm] at h
        exact digitChar_inj n m hn hm (List.cons_eq_cons.mp h).1
      · rw [natRepr_lt n hn, natRepr_ge m hm] at h
        have hlen := congrArg List.length h
        have hne := natRepr_ne_nil (m / 10)
        simp at hlen
        cases hq : natRepr (m / 10) with
        | nil => exact absurd hq hne
        | cons x xs => rw [hq] at hlen; simp at hlen
    · by_cases hm : m < 10
      · rw [natRepr_ge n hn, natRepr_lt m hm] at h
        have hlen := congrArg List.length h
        have hne := natRepr_ne_nil (n / 10)
        simp at hlen
        cases hq : natRepr (n / 10) with
        | nil => exact absurd hq hne
        | cons x xs => rw [hq] at hlen; simp at hlen
      · rw [natRepr_ge n hn, natRepr_ge m hm] at h
        have hinj := List.append_inj' h (by simp)
        have h1 : n / 10 = m / 10 :=
          ih (n / 10) (Nat.div_lt_self (by omega) (by omega)) (m / 10) hinj.1
        have h2 : n % 10 = m % 10 := by
          have := (List.cons_eq_cons.mp hinj.2).1
          exact digitChar_inj _ _ (Nat.mod_lt _ (by omega)) (Nat.mod_lt _ (by omega)) this
        omega

theorem mkId_inj_right (k i j : Nat) (h : mkId k i = mkId k j) : i = j := by
  apply natRepr_inj
  have hl : mkIdL k i = mkIdL k j := congrArg String.data h
  unfold mkIdL at hl
  exact List.append_cancel_left hl

theorem mkId_inj_left (k k' i i' : Nat) (hk : k < 10) (hk' : k' < 10)
    (h : mkId k i = mkId k' i') : k = k' := by
  have hl : mkIdL k i = mkIdL k' i' := congrArg String.data h
  unfold mkIdL at hl
  rw [natRepr_lt k hk, natRepr_lt k' hk'] at hl
  simp at hl
  exact digitChar_inj k k' hk hk' hl.1

theorem splitComma_ne_nil (l : List Char) : splitComma l ≠ [] := by
  cases l with
  | nil => simp [splitComma]
  | cons c cs =>
    simp only [splitComma]
    cases splitComma cs with
    | nil => simp
    | cons seg rest =>
      by_cases h : c = ','
      · simp [h]
      · simp [h]

theorem splitComma_no_comma (l : List Char) (h : ',' ∉ l) : splitComma l = [l] := by
  induction l with
  | nil => simp [splitComma]
  | cons c cs ih =>
    have hc : c ≠ ',' := fun hc => h (by simp [hc])
    have hcs : ',' ∉ cs := fun hm => h (List.mem_cons_of_mem _ hm)
    simp [splitComma, ih hcs, hc]

theorem splitComma_append (pre rest : List Char) (h : ',' ∉ pre) :
    splitComma (pre ++ ',' :: rest) = pre :: splitComma rest := by
  induction pre with
  | nil =>
    simp only [List.nil_append, splitComma]
    cases hq : splitComma rest with
    | nil => exact absurd hq (splitComma_ne_nil rest)
    | cons seg segs => simp
  | cons c cs ih =>
    have hc : c ≠ ',' := fun hc => h (by simp [hc])
    have hcs : ',' ∉ cs := fun hm => h (List.mem_cons_of_mem _ hm)
    simp only [List.cons_append, splitComma, List.append_eq]
    rw [ih hcs]
    simp [hc]

theorem ConcInv_init : ConcInv initState := by
  refine ⟨by simp [initState], ?_, ?_⟩ <;> simp [initState]

theorem ConcInv_step {s s' : SessionState} (hinv : ConcInv s) (hstep : UIStep s s') :
    ConcInv s' := by
  obtain ⟨h1, h2, h3⟩ := hinv
  cases hstep with
  | upload fs hidle =>
    exact ⟨h1, h2, h3⟩
  | clickAnalyze hidle hfiles =>
    unfold startAnalysisBegin
    by_cases hf : s.files = []
    · simp only [hf, if_true]; exact ⟨h1, h2, h3⟩
    · have hpg : s.pendingG = [] := by
        by_contra hne
        rw [(h3 hne).1] at hidle
        exact absurd hidle (by simp)
      have hpa : s.pendingA = 0 := by
        by_contra hne
        rw [h2 hne] at hidle
        exact absurd hidle (by simp)
      simp only [hf, if_false]
      refine ⟨by simp [hpa, hpg], by simp, ?_⟩
      intro hne
      simp only [hpg] at hne
      exact absurd rfl hne
  | analysisOk a hpa =>
    have hpg : s.pendingG = [] := by
      cases hq : s.pendingG with
      | nil => rfl
      | cons x xs => rw [hq] at h1; simp at h1; omega
    rw [hpg] at h1
    simp at h1
    refine ⟨?_, ?_, ?_⟩
    · simp [startAnalysisFinishOk, hpg]
      omega
    · intro hne
      exfalso
      simp only [startAnalysisFinishOk] at hne
      exact hne (by omega)
    · intro hne
      exfalso
      simp only [startAnalysisFinishOk, hpg] at hne
      exact hne rfl
  | analysisErr msg hpa =>
    have hpg : s.pendingG = [] := by
      cases hq : s.pendingG with
      | nil => rfl
      | cons x xs => rw [hq] at h1; simp at h1; omega
    rw [hpg] at h1
    simp at h1
    refine ⟨?_, ?_, ?_⟩
    · simp [startAnalysisFinishErr, hpg]
      omega
    · intro hne
      exfalso
      simp only [startAnalysisFinishErr] at hne
      exact hne (by omega)
    · intro hne
      exfalso
      simp only [startAnalysisFinishErr, hpg] at hne
      exact hne rfl
  | clickGenerate hstat hgen =>
    unfold generateNextPartBegin
    by_cases hg : s.analysis = none ∨ 4 ≤ s.currentPartIndex
    · simp only [hg, if_true]; exact ⟨h1, h2, h3⟩
    · have hpg : s.pendingG = [] := by
        by_contra hne
        rw [(h3 hne).2] at hgen
        exact absurd hgen (by simp)
      have hpa : s.pendingA = 0 := by
        by_contra hne
        rcases hstat with hstat | hstat <;> rw [h2 hne] at hstat <;>
          exact absurd hstat (by simp)
      simp only [hg, if_false]
      exact ⟨by simp [hpa, hpg], by simp [hpa], by simp⟩
  | genOk batch k rest hpg =>
    rw [hpg] at h1
    simp at h1
    have hrest : rest = [] := List.length_eq_zero.mp (by omega)
    have hpa : s.pendingA = 0 := by omega
    refine ⟨?_, ?_, ?_⟩
    · simp [generateNextPartFinishOk, hpg, hrest, hpa]
    · intro hne
      exfalso
      simp only [generateNextPartFinishOk] at hne
      exact hne hpa
    · intro hne
      exfalso
      simp only [generateNextPartFinishOk, hpg, hrest] at hne
      exact hne (by simp)
  | genErr msg k rest hpg =>
    rw [hpg] at h1
    simp at h1
    have hrest : rest = [] := List.length_eq_zero.mp (by omega)
    have hpa : s.pendingA = 0 := by omega
    refine ⟨?_, ?_, ?_⟩
    · simp [generateNextPartFinishErr, hpg, hrest, hpa]
    · intro hne
      exfalso
      simp only [generateNextPartFinishErr] at hne
      exact hne hpa
    · intro hne
      exfalso
      simp only [generateNextPartFinishErr, hpg, hrest] at hne
      exact hne (by simp)

theorem ConcInv_reachable {s : SessionState} (h : Reachable s) : ConcInv s := by
  induction h with
  | base => exact ConcInv_init
  | step _ hstep ih => exact ConcInv_step ih hstep

theorem mk_data_eq (s : String) : (⟨s.data⟩ : String) = s := rfl

theorem parseQuotedTail_escape (d : List Char) :
    ∀ rest : List Char, rest.head? ≠ some '"' →
    parseQuotedTail (escapeQuotesL d ++ '"' :: rest) = (d, rest) := by
  induction d with
  | nil =>
    intro rest hr
    simp only [escapeQuotesL, List.nil_append]
    cases rest with
    | nil => simp [parseQuotedTail]
    | cons r rs =>
      have hrne : r ≠ '"' := by
        intro hre
        exact hr (by simp [hre])
      simp [parseQuotedTail, hrne]
  | cons x d' ih =>
    intro rest hr
    by_cases hx : x = '"'
    · subst hx
      have hesc : escapeQuotesL ('"' :: d') = '"' :: '"' :: escapeQuotesL d' := by
        simp [escapeQuotesL]
      rw [hesc]
      simp only [List.cons_append]
      have hstep : parseQuotedTail ('"' :: '"' :: (escapeQuotesL d' ++ '"' :: rest))
          = ('"' :: (parseQuotedTail (escapeQuotesL d' ++ '"' :: rest)).1,
             (parseQuotedTail (escapeQuotesL d' ++ '"' :: rest)).2) := by
        simp [parseQuotedTail]
      rw [hstep, ih rest hr]
    · have hesc : escapeQuotesL (x :: d') = x :: escapeQuotesL d' := by
        simp [escapeQuotesL, hx]
      rw [hesc]
      simp only [List.cons_append]
      cases hq : escapeQuotesL d' ++ '"' :: rest with
      | nil => simp at hq
      | cons y ys =>
        have hstep : parseQuotedTail (x :: y :: ys)
            = (x :: (parseQuotedTail (y :: ys)).1, (parseQuotedTail (y :: ys)).2) := by
          simp [parseQuotedTail, hx]
        rw [hstep, ← hq, ih rest hr]

theorem parseUnquoted_app (d : List Char) :
    ∀ rest : List Char,
    (∀ c ∈ d, c ≠ ',' ∧ c ≠ '\n') →
    (rest = [] ∨ ∃ c cs, rest = c :: cs ∧ (c = ',' ∨ c = '\n')) →
    parseUnquoted (d ++ rest) = (d, rest) := by
  induction d with
  | nil =>
    intro rest _ hr
    rcases hr with hr | ⟨c, cs, hr, hdelim⟩
    · simp [hr, parseUnquoted]
    · simp [hr, parseUnquoted, hdelim]
  | cons x d' ih =>
    intro rest hd hr
    have hx := hd x (by simp)
    have hnd : ¬ (x = ',' ∨ x = '\n') := by
      intro hc
      rcases hc with hc | hc
      · exact hx.1 hc
      · exact hx.2 hc
    simp only [List.cons_append, parseUnquoted, hnd, if_false, List.append_eq]
    rw [ih rest (fun c hc => hd c (by simp [hc])) hr]

theorem parseField_plain (d : List Char) (rest : List Char)
    (hd : ∀ c ∈ d, plainChar c)
    (hr : rest = [] ∨ ∃ c cs, rest = c :: cs ∧ (c = ',' ∨ c = '\n')) :
    parseField (d ++ rest) = (d, rest) := by
  have hd2 : ∀ c ∈ d, c ≠ ',' ∧ c ≠ '\n' := fun c hc => ⟨(hd c hc).2.1, (hd c hc).2.2⟩
  cases d with
  | nil =>
    rcases hr with hrn | ⟨c, cs, hrc, hdelim⟩
    · simp [hrn, parseField]
    · have hcq : c ≠ '"' := by
        rcases hdelim with h | h <;> simp [h]
      simp only [List.nil_append, hrc, parseField, hcq, if_false]
      exact parseUnquoted_app [] (c :: cs) (by simp) (by right; exact ⟨c, cs, rfl, hdelim⟩)
  | cons x d' =>
    have hxq : x ≠ '"' := (hd x (by simp)).1
    simp only [List.cons_append, parseField, hxq, if_false]
    exact parseUnquoted_app (x :: d') rest hd2 hr

theorem parseField_quoted (d : List Char) (rest : List Char)
    (hr : rest.head? ≠ some '"') :
    parseField (('"' :: escapeQuotesL d ++ ['"']) ++ rest) = (d, rest) := by
  have hassoc : ('"' :: escapeQuotesL d ++ ['"']) ++ rest
      = '"' :: (escapeQuotesL d ++ '"' :: rest) := by
    simp
  rw [hassoc]
  simp only [parseField, if_pos rfl]
  exact parseQuotedTail_escape d rest hr

theorem joinSepL_cons₂ (sep : Char) (x y : List Char) (rest : List (List Char)) :
    joinSepL sep (x :: y :: rest) = x ++ sep :: joinSepL sep (y :: rest) := rfl

theorem joinSepL_length (sep : Char) (l : List (List Char)) :
    l.length ≤ (joinSepL sep l).length + 1 := by
  induction l with
  | nil => simp
  | cons x rest ih =>
    cases rest with
    | nil => simp [joinSepL]
    | cons y rest2 =>
      rw [joinSepL_cons₂]
      simp only [List.length_cons, List.length_append]
      simp at ih
      omega

theorem parseRecAux_comma (fuel : Nat) (l f r2 : List Char)
    (h : parseField l = (f, ',' :: r2)) :
    parseRecAux (fuel + 1) l
      = ((⟨f⟩ : String) :: (parseRecAux fuel r2).1, (parseRecAux fuel r2).2) := by
  simp [parseRecAux, h]

theorem parseRecAux_newline (fuel : Nat) (l f r2 : List Char)
    (h : parseField l = (f, '\n' :: r2)) :
    parseRecAux (fuel + 1) l = ([⟨f⟩], r2) := by
  simp [parseRecAux, h]

theorem parseRecAux_eof (fuel : Nat) (l f : List Char)
    (h : parseField l = (f, [])) :
    parseRecAux (fuel + 1) l = ([⟨f⟩], []) := by
  simp [parseRecAux, h]

theorem parseRowsAux_nil (fuel : Nat) : parseRowsAux fuel [] = [] := by
  cases fuel with
  | zero => rfl
  | succ f => rfl

theorem parseRec_join {origs : List String} {reps : List (List Char)}
    (hfa : List.Forall₂ FieldRep origs reps) :
    ∀ (tail rest : List Char) (fuel : Nat),
    reps ≠ [] →
    (tail = '\n' :: rest ∨ (tail = [] ∧ rest = [])) →
    origs.length ≤ fuel →
    parseRecAux fuel (joinSepL ',' reps ++ tail) = (origs, rest) := by
  induction hfa with
  | nil =>
    intro tail rest fuel hne _ _
    exact absurd rfl hne
  | @cons o rp os rps hf hall ih =>
    intro tail rest fuel hne htail hfuel
    cases fuel with
    | zero => simp at hfuel
    | succ f =>
      cases rps with
      | nil =>
        cases hall
        have hjoin : joinSepL ',' [rp] = rp := rfl
        rw [hjoin]
        have hpf : parseField (rp ++ tail) = (o.data, tail) := by
          cases hf with
          | plain hpl =>
            refine parseField_plain o.data tail hpl ?_
            rcases htail with h | ⟨h1, _⟩
            · right; exact ⟨'\n', rest, h, Or.inr rfl⟩
            · left; exact h1
          | quoted =>
            refine parseField_quoted o.data tail ?_
            rcases htail with h | ⟨h1, _⟩
            · rw [h]; simp
            · rw [h1]; simp
        rcases htail with h | ⟨h1, h2⟩
        · subst h
          rw [parseRecAux_newline f _ _ _ hpf, mk_data_eq]
        · subst h1; subst h2
          rw [parseRecAux_eof f _ _ hpf, mk_data_eq]
      | cons rq rrest =>
        have hos : os ≠ [] := by
          cases hall
          simp
        rw [joinSepL_cons₂]
        simp only [List.append_assoc, List.cons_append]
        have hpf : parseField (rp ++ ',' :: (joinSepL ',' (rq :: rrest) ++ tail))
            = (o.data, ',' :: (joinSepL ',' (rq :: rrest) ++ tail)) := by
          cases hf with
          | plain hpl =>
            refine parseField_plain o.data _ hpl ?_
            right
            exact ⟨',', _, rfl, Or.inl rfl⟩
          | quoted =>
            refine parseField_quoted o.data _ ?_
            simp
        rw [parseRecAux_comma f _ _ _ hpf]
        rw [ih tail rest f (by simp) htail (by simp at hfuel; omega)]

theorem parseRows_join {rowsO : List (List String)} {rowsR : List (List Char)}
    (hfa : List.Forall₂ RowRep rowsO rowsR) :
    ∀ fuel : Nat, rowsO.length ≤ fuel →
    parseRowsAux fuel (joinSepL '\n' rowsR) = rowsO := by
  induction hfa with
  | nil =>
    intro fuel _
    exact parseRowsAux_nil fuel
  | @cons o r os rs hr hall ih =>
    intro fuel hfuel
    obtain ⟨reps, hreps, hlen2, hrchars⟩ := hr
    have horig_len : o.length = reps.length := List.Forall₂.length_eq hreps
    have hrne : reps ≠ [] := by
      intro hc
      rw [hc] at hlen2
      simp at hlen2
    have hrlen : 1 ≤ r.length := by
      have := joinSepL_length ',' reps
      rw [← hrchars] at this
      omega
    cases fuel with
    | zero => simp at hfuel
    | succ f =>
      cases rs with
      | nil =>
        cases hall
        have hjoin : joinSepL '\n' [r] = r := rfl
        rw [hjoin]
        cases hq : r with
        | nil => rw [hq] at hrlen; simp at hrlen
        | cons c cs =>
          have hrec : parseRecAux ((c :: cs).length + 1) (c :: cs) = (o, []) := by
            have hbound : o.length ≤ (joinSepL ',' reps).length + 1 := by
              rw [horig_len]
              exact joinSepL_length ',' reps
            have hrec2 := parseRec_join hreps [] [] ((joinSepL ',' reps).length + 1)
              hrne (Or.inr ⟨rfl, rfl⟩) hbound
            rw [List.append_nil] at hrec2
            rw [← hq, hrchars]
            exact hrec2
          simp only [parseRowsAux, hrec]
          exact congrArg (o :: ·) (parseRowsAux_nil f)
      | cons r2 rs2 =>
        have hos : os ≠ [] := by
          cases hall
          simp
        rw [joinSepL_cons₂]
        cases hq : r ++ '\n' :: joinSepL '\n' (r2 :: rs2) with
        | nil => simp at hq
        | cons c cs =>
          have hrec : parseRecAux ((c :: cs).length + 1) (c :: cs)
              = (o, joinSepL '\n' (r2 :: rs2)) := by
            rw [← hq, hrchars]
            refine parseRec_join hreps _ _ _ hrne (Or.inl rfl) ?_
            have hlen := joinSepL_length ',' reps
            simp only [List.length_append, List.length_cons]
            omega
          simp only [parseRowsAux, hrec]
          rw [ih f (by simp at hfuel; omega)]

theorem forall₂_plain (l : List String) (h : ∀ s ∈ l, plainField s) :
    List.Forall₂ FieldRep l (l.map String.data) := by
  induction l with
  | nil => exact List.Forall₂.nil
  | cons x xs ih =>
    exact List.Forall₂.cons (FieldRep.plain x (h x (by simp)))
      (ih fun s hs => h s (by simp [hs]))

theorem headerRowRep : RowRep csvHeaders (joinSep ',' csvHeaders).data := by
  refine ⟨csvHeaders.map String.data, ?_, by simp [csvHeaders], rfl⟩
  exact forall₂_plain csvHeaders (by decide)

theorem rowRep_of (q : MCQ) (h1 : plainField q.partName) (h2 : plainField q.chapterTitle) :
    RowRep (origFields q) (csvRow q).data := by
  refine ⟨(csvRowFields q).map String.data, ?_, by simp [csvRowFields], rfl⟩
  unfold origFields csvRowFields
  simp only [List.map]
  refine List.Forall₂.cons (FieldRep.plain _ h1) ?_
  refine List.Forall₂.cons (FieldRep.plain _ h2) ?_
  refine List.Forall₂.cons (FieldRep.quoted q.question) ?_
  refine List.Forall₂.cons (FieldRep.quoted q.options.A) ?_
  refine List.Forall₂.cons (FieldRep.quoted q.options.B) ?_
  refine List.Forall₂.cons (FieldRep.quoted q.options.C) ?_
  refine List.Forall₂.cons (FieldRep.quoted q.options.D) ?_
  refine List.Forall₂.cons (FieldRep.plain _ ?_) List.Forall₂.nil
  cases q.correctAnswer <;> decide

theorem rowsRep_of (qs : List MCQ)
    (hplain : ∀ q ∈ qs, plainField q.partName ∧ plainField q.chapterTitle) :
    List.Forall₂ RowRep (qs.map origFields) ((qs.map csvRow).map String.data) := by
  induction qs with
  | nil => exact List.Forall₂.nil
  | cons q qs2 ih =>
    simp only [List.map]
    exact List.Forall₂.cons
      (rowRep_of q (hplain q (by simp)).1 (hplain q (by simp)).2)
      (ih fun p hp => hplain p (by simp [hp]))

theorem parseCSV_convertToCSV (qs : List MCQ)
    (hplain : ∀ q ∈ qs, plainField q.partName ∧ plainField q.chapterTitle) :
    parseCSV (convertToCSV qs) = csvHeaders :: qs.map origFields := by
  have hfa := List.Forall₂.cons headerRowRep (rowsRep_of qs hplain)
  have hdoc : (convertToCSV qs).data
      = joinSepL '\n' ((joinSep ',' csvHeaders).data :: (qs.map csvRow).map String.data) := rfl
  unfold parseCSV
  rw [hdoc]
  refine parseRows_join hfa _ ?_
  have hlb := joinSepL_length '\n'
    ((joinSep ',' csvHeaders).data :: (qs.map csvRow).map String.data)
  simp only [List.length_cons, List.length_map] at hlb ⊢
  omega

theorem stampFrom_length (k : Nat) (nm : String) :
    ∀ (raws : List RawMCQ) (i : Nat), (stampFrom k nm i raws).length = raws.length := by
  intro raws
  induction raws with
  | nil => intro i; rfl
  | cons m rest ih => intro i; simp [stampFrom, ih]

theorem stampFrom_get? (k : Nat) (nm : String) :
    ∀ (raws : List RawMCQ) (i j : Nat),
    (stampFrom k nm i raws).get? j = (raws.get? j).map (stampOne k nm (i + j)) := by
  intro raws
  induction raws with
  | nil => intro i j; cases j <;> rfl
  | cons m rest ih =>
    intro i j
    cases j with
    | zero => rfl
    | succ j2 =>
      simp only [stampFrom, List.get?_cons_succ, ih (i + 1) j2]
      have : i + 1 + j2 = i + (j2 + 1) := by omega
      rw [this]

theorem stampFrom_id_mem (k : Nat) (nm : String) :
    ∀ (raws : List RawMCQ) (i : Nat) (m : MCQ), m ∈ stampFrom k nm i raws →
    ∃ j, i ≤ j ∧ j < i + raws.length ∧ m.id = mkId k j := by
  intro raws
  induction raws with
  | nil => intro i m h; simp [stampFrom] at h
  | cons r rest ih =>
    intro i m h
    simp only [stampFrom, List.mem_cons] at h
    rcases h with h | h
    · exact ⟨i, le_refl i, by simp, by rw [h]; rfl⟩
    · obtain ⟨j, hj1, hj2, hj3⟩ := ih (i + 1) m h
      exact ⟨j, by omega, by simp; omega, hj3⟩

theorem stampFrom_ids_nodup (k : Nat) (nm : String) :
    ∀ (raws : List RawMCQ) (i : Nat), ((stampFrom k nm i raws).map MCQ.id).Nodup := by
  intro raws
  induction raws with
  | nil => intro i; simp [stampFrom]
  | cons r rest ih =>
    intro i
    simp only [stampFrom, List.map_cons, List.nodup_cons]
    refine ⟨?_, ih (i + 1)⟩
    intro hmem
    simp only [List.mem_map] at hmem
    obtain ⟨m, hm, hid⟩ := hmem
    obtain ⟨j, hj1, _, hj3⟩ := stampFrom_id_mem k nm rest (i + 1) m hm
    have : (stampOne k nm i r).id = mkId k i := rfl
    rw [hj3, this] at hid
    have := mkId_inj_right k j i hid
    omega

theorem generatePartMCQs_ok (a : TextbookAnalysis) (k : Nat) (ex : List MCQ)
    (raws : List RawMCQ) (p : Part) (hp : a.parts.get? k = some p) :
    generatePartMCQs a k ex (.ok (some raws)) = .ok (stampMCQs k p.name raws) := by
  unfold generatePartMCQs
  rw [hp]

theorem generatePartMCQs_ok_inv {a : TextbookAnalysis} {k : Nat} {ex : List MCQ}
    {o : CapOutcome (List RawMCQ)} {out : List MCQ}
    (h : generatePartMCQs a k ex o = .ok out) :
    ∃ p raws, a.parts.get? k = some p ∧ o = .ok (some raws) ∧
      out = stampMCQs k p.name raws := by
  unfold generatePartMCQs at h
  cases hp : a.parts.get? k with
  | none => rw [hp] at h; simp at h
  | some p =>
    rw [hp] at h
    cases o with
    | error e => simp at h
    | ok v =>
      cases v with
      | none => simp at h
      | some raws =>
        simp at h
        exact ⟨p, raws, rfl, rfl, h.symm⟩

theorem generatePartMCQs_err {a : TextbookAnalysis} {k : Nat} {ex : List MCQ}
    {o : CapOutcome (List RawMCQ)}
    (hfail : ∀ raws, o ≠ .ok (some raws)) :
    ∃ msg, generatePartMCQs a k ex o = .error msg := by
  unfold generatePartMCQs
  cases hp : a.parts.get? k with
  | none => exact ⟨undefinedPartErrorMsg, rfl⟩
  | some p =>
    cases o with
    | error e => exact ⟨e, rfl⟩
    | ok v =>
      cases v with
      | none => exact ⟨jsonParseErrorMsg, rfl⟩
      | some raws => exact absurd rfl (hfail raws)

theorem generateNextPart_noAnalysis (o : CapOutcome (List RawMCQ)) (s : SessionState)
    (h : s.analysis = none) : generateNextPart o s = s := by
  unfold generateNextPart
  rw [h]

theorem generateNextPart_past (o : CapOutcome (List RawMCQ)) (s : SessionState)
    (a : TextbookAnalysis) (ha : s.analysis = some a) (h4 : 4 ≤ s.currentPartIndex) :
    generateNextPart o s = s := by
  unfold generateNextPart
  rw [ha]
  simp [h4]

theorem generateNextPart_eq_ok (o : CapOutcome (List RawMCQ)) (s : SessionState)
    (a : TextbookAnalysis) (newMcqs : List MCQ)
    (ha : s.analysis = some a) (hidx : ¬ 4 ≤ s.currentPartIndex)
    (hg : generatePartMCQs a s.currentPartIndex s.mcqs o = .ok newMcqs) :
    generateNextPart o s = { s with
      mcqs := s.mcqs ++ newMcqs, currentPartIndex := s.currentPartIndex + 1,
      status := if 4 ≤ s.currentPartIndex + 1 then .COMPLETED else .READY_TO_GENERATE,
      error := none, isGenerating := false } := by
  unfold generateNextPart
  rw [ha]
  simp [hidx, hg]

theorem generateNextPart_eq_err (o : CapOutcome (List RawMCQ)) (s : SessionState)
    (a : TextbookAnalysis) (msg : String)
    (ha : s.analysis = some a) (hidx : ¬ 4 ≤ s.currentPartIndex)
    (hg : generatePartMCQs a s.currentPartIndex s.mcqs o = .error msg) :
    generateNextPart o s = { s with
      error := some (if msg = "" then
        "Failed to generate Part " ++ ⟨natRepr (s.currentPartIndex + 1)⟩ ++ "." else msg),
      status := .READY_TO_GENERATE, isGenerating := false } := by
  unfold generateNextPart
  rw [ha]
  simp [hidx, hg]

theorem startAnalysis_fields (o : CapOutcome TextbookAnalysis) (s : SessionState) :
    (startAnalysis o s).mcqs = s.mcqs ∧
    (startAnalysis o s).currentPartIndex = s.currentPartIndex := by
  unfold startAnalysis analyzeTextbook
  by_cases hf : s.files = []
  · simp [hf]
  · cases o with
    | error e => simp [hf]
    | ok v => cases v with
      | none => simp [hf]
      | some a => simp [hf]

theorem generateNextPart_fail_fields (o : CapOutcome (List RawMCQ)) (s : SessionState)
    (hfail : ∀ raws, o ≠ .ok (some raws)) :
    (generateNextPart o s).mcqs = s.mcqs ∧
    (generateNextPart o s).currentPartIndex = s.currentPartIndex ∧
    (generateNextPart o s).analysis = s.analysis := by
  cases ha : s.analysis with
  | none => rw [generateNextPart_noAnalysis o s ha]; exact ⟨rfl, rfl, ha⟩
  | some a =>
    by_cases hidx : 4 ≤ s.currentPartIndex
    · rw [generateNextPart_past o s a ha hidx]; exact ⟨rfl, rfl, ha⟩
    · obtain ⟨msg, hmsg⟩ := @generatePartMCQs_err a s.currentPartIndex s.mcqs o hfail
      rw [generateNextPart_eq_err o s a msg ha hidx hmsg]
      exact ⟨rfl, rfl, ha⟩

theorem IdOk_startAnalysis (o : CapOutcome TextbookAnalysis) (s : SessionState)
    (h : IdOk s) : IdOk (startAnalysis o s) := by
  obtain ⟨h1, h2⟩ := startAnalysis_fields o s
  unfold IdOk at h ⊢
  rw [h1, h2]
  exact h

theorem IdOk_generateNextPart (o : CapOutcome (List RawMCQ)) (s : SessionState)
    (h : IdOk s) : IdOk (generateNextPart o s) := by
  obtain ⟨hnd, hle, hmem⟩ := h
  cases ha : s.analysis with
  | none => rw [generateNextPart_noAnalysis o s ha]; exact ⟨hnd, hle, hmem⟩
  | some a =>
    by_cases hidx : 4 ≤ s.currentPartIndex
    · rw [generateNextPart_past o s a ha hidx]; exact ⟨hnd, hle, hmem⟩
    · cases hg : generatePartMCQs a s.currentPartIndex s.mcqs o with
      | error msg =>
        rw [generateNextPart_eq_err o s a msg ha hidx hg]
        exact ⟨hnd, hle, hmem⟩
      | ok newMcqs =>
        obtain ⟨p, raws, hp, ho, hout⟩ := generatePartMCQs_ok_inv hg
        rw [generateNextPart_eq_ok o s a newMcqs ha hidx hg]
        subst hout
        refine ⟨?_, by simp; omega, ?_⟩
        · show ((s.mcqs ++ stampMCQs s.currentPartIndex p.name raws).map MCQ.id).Nodup
          rw [List.map_append, List.nodup_append]
          refine ⟨hnd, stampFrom_ids_nodup _ _ _ _, ?_⟩
          intro x hx1 hx2
          simp only [List.mem_map] at hx1 hx2
          obtain ⟨m1, hm1, hid1⟩ := hx1
          obtain ⟨m2, hm2, hid2⟩ := hx2
          obtain ⟨k, j, hk, hkid⟩ := hmem m1 hm1
          obtain ⟨j2, _, _, hid2e⟩ :=
            stampFrom_id_mem s.currentPartIndex p.name raws 0 m2 hm2
          have hx : mkId k j = mkId s.currentPartIndex j2 := by
            rw [← hkid, ← hid2e, hid1, hid2]
          have := mkId_inj_left k s.currentPartIndex j j2 (by omega) (by omega) hx
          omega
        · intro m hm
          show ∃ k j, k < s.currentPartIndex + 1 ∧ m.id = mkId k j
          rcases List.mem_append.mp hm with hm | hm
          · obtain ⟨k, j, hk, hkid⟩ := hmem m hm
            exact ⟨k, j, by omega, hkid⟩
          · obtain ⟨j, _, _, hid⟩ :=
              stampFrom_id_mem s.currentPartIndex p.name raws 0 m hm
            exact ⟨s.currentPartIndex, j, by omega, hid⟩

theorem IdOk_applyOp (op : GenOp) (s : SessionState) (h : IdOk s) :
    IdOk (applyOp op s) := by
  cases op with
  | analyze o => exact IdOk_startAnalysis o s h
  | generate o => exact IdOk_generateNextPart o s h

theorem IdOk_runOps (ops : List GenOp) : ∀ s : SessionState, IdOk s →
    IdOk (runOps ops s) := by
  induction ops with
  | nil => intro s h; exact h
  | cons op rest ih =>
    intro s h
    exact ih (applyOp op s) (IdOk_applyOp op s h)

theorem runGen_count (outcomes : List (CapOutcome (List RawMCQ))) :
    ∀ (s : SessionState) (a : TextbookAnalysis),
    s.analysis = some a → a.parts.length = 4 →
    s.currentPartIndex + outcomes.countP isOkSome ≤ 4 →
    (runGen outcomes s).mcqs.length = s.mcqs.length + (outcomes.map okBatchSize).sum := by
  induction outcomes with
  | nil => intro s a _ _ _; simp [runGen]
  | cons o rest ih =>
    intro s a ha hparts hbound
    have hrun : runGen (o :: rest) s = runGen rest (generateNextPart o s) := rfl
    rw [hrun]
    by_cases hok : ∃ raws, o = .ok (some raws)
    · obtain ⟨raws, rfl⟩ := hok
      have hcount : List.countP isOkSome (Except.ok (some raws) :: rest)
          = rest.countP isOkSome + 1 := by
        simp [List.countP_cons, isOkSome]
      rw [hcount] at hbound
      have hidx : ¬ 4 ≤ s.currentPartIndex := by omega
      have hlt : s.currentPartIndex < a.parts.length := by omega
      obtain ⟨p, hp⟩ : ∃ p, a.parts.get? s.currentPartIndex = some p :=
        ⟨a.parts.get ⟨_, hlt⟩, List.get?_eq_get hlt⟩
      have hg := generatePartMCQs_ok a s.currentPartIndex s.mcqs raws p hp
      have hstep := generateNextPart_eq_ok (Except.ok (some raws)) s a _ ha hidx hg
      have h1 : (generateNextPart (Except.ok (some raws)) s).analysis = some a := by
        rw [hstep]; exact ha
      have h2 : (generateNextPart (Except.ok (some raws)) s).currentPartIndex
          = s.currentPartIndex + 1 := by rw [hstep]
      have h3 : (generateNextPart (Except.ok (some raws)) s).mcqs
          = s.mcqs ++ stampMCQs s.currentPartIndex p.name raws := by rw [hstep]
      rw [ih _ a h1 hparts (by rw [h2]; omega)]
      rw [h3]
      simp only [List.length_append, stampMCQs, stampFrom_length, List.map_cons,
        List.sum_cons, okBatchSize]
      omega
    · have hfail : ∀ raws, o ≠ .ok (some raws) := fun raws hc => hok ⟨raws, hc⟩
      obtain ⟨hm, hi, han⟩ := generateNextPart_fail_fields o s hfail
      have hcz : isOkSome o = false := by
        cases o with
        | error e => rfl
        | ok v =>
          cases v with
          | none => rfl
          | some raws => exact absurd rfl (hfail raws)
      have hbz : okBatchSize o = 0 := by
        cases o with
        | error e => rfl
        | ok v =>
          cases v with
          | none => rfl
          | some raws => exact absurd rfl (hfail raws)
      have hcount : List.countP isOkSome (o :: rest) = rest.countP isOkSome := by
        simp [List.countP_cons, hcz]
      rw [hcount] at hbound
      rw [ih (generateNextPart o s) a (by rw [han]; exact ha) hparts (by rw [hi]; omega)]
      rw [hm]
      simp [hbz]

/-- C1 counterexample: from a state whose status is GENERATING, invoking
generateNextPart is not rejected: its guard ignores status, so the state
changes and a second generation call is issued (two calls in flight); likewise
startAnalysis invoked while status is ANALYZING issues a second analysis call. -/
theorem c1_counterexample :
    exGenState.status = AppStatus.GENERATING ∧
    generateNextPartBegin exGenState ≠ exGenState ∧
    (generateNextPartBegin exGenState).pendingG.length = 2 ∧
    exAnState.status = AppStatus.ANALYZING ∧
    startAnalysisBegin exAnState ≠ exAnState ∧
    (startAnalysisBegin exAnState).pendingA = 2 := by decide

/-- C1 (amended): the handlers themselves do not inspect status, but for every
session state reachable through the rendered UI (analyze control only on the
IDLE panel, generate button disabled while isGenerating) at most one Analysis
or Part Generation call is in flight at a time. -/
theorem c1_at_most_one_call {s : SessionState} (h : Reachable s) :
    s.pendingA + s.pendingG.length ≤ 1 :=
  (ConcInv_reachable h).1

/-- C1 witness: a concrete reachable state with an analysis call in flight. -/
theorem c1_at_most_one_call_witness :
    (startAnalysisBegin exState0).pendingA
      + (startAnalysisBegin exState0).pendingG.length ≤ 1 :=
  c1_at_most_one_call
    (Reachable.step (Reachable.step Reachable.base (UIStep.upload [exFile] rfl))
      (UIStep.clickAnalyze rfl (by decide)))

/-- C2 counterexample: a parsed response with five parts and a dangling
chapterTitle is returned as a TextbookAnalysis instead of failing, and the
pipeline moves past the analyzing state to READY_TO_GENERATE. -/
theorem c2_counterexample :
    ¬ analysisInvariants exBadAnalysis ∧
    analyzeTextbook [exFile] (.ok (some exBadAnalysis)) = .ok exBadAnalysis ∧
    (startAnalysis (.ok (some exBadAnalysis)) exState0).status
      = AppStatus.READY_TO_GENERATE ∧
    (startAnalysis (.ok (some exBadAnalysis)) exState0).analysis
      = some exBadAnalysis :=
  ⟨by decide, rfl, by decide, by decide⟩

/-- C2 (amended): analyze fails exactly when the capability call fails or the
response text is unparsable as JSON, and then the pipeline returns to IDLE; a
parsed result is returned as-is, with no validation of the schema invariants. -/
theorem c2_parse_failures_only (files : List FileData) (e : String)
    (a : TextbookAnalysis) (s : SessionState) (hf : s.files ≠ []) :
    analyzeTextbook files (.error e) = .error e ∧
    analyzeTextbook files (.ok none) = .error jsonParseErrorMsg ∧
    analyzeTextbook files (.ok (some a)) = .ok a ∧
    (startAnalysis (.error e) s).status = AppStatus.IDLE ∧
    (startAnalysis (.ok none) s).status = AppStatus.IDLE ∧
    (startAnalysis (.error e) s).analysis = s.analysis ∧
    (startAnalysis (.ok none) s).analysis = s.analysis := by
  refine ⟨rfl, rfl, rfl, ?_, ?_, ?_, ?_⟩ <;>
    simp [startAnalysis, analyzeTextbook, hf]

/-- C2 witness at concrete inputs. -/
theorem c2_parse_failures_only_witness :
    analyzeTextbook [exFile] (.error "boom") = .error "boom" ∧
    analyzeTextbook [exFile] (.ok none) = .error jsonParseErrorMsg ∧
    analyzeTextbook [exFile] (.ok (some exAnalysis)) = .ok exAnalysis ∧
    (startAnalysis (.error "boom") exState0).status = AppStatus.IDLE ∧
    (startAnalysis (.ok none) exState0).status = AppStatus.IDLE ∧
    (startAnalysis (.error "boom") exState0).analysis = exState0.analysis ∧
    (startAnalysis (.ok none) exState0).analysis = exState0.analysis :=
  c2_parse_failures_only [exFile] "boom" exAnalysis exState0 (by decide)

/-- C3 counterexample: the Part field of a row is emitted raw, not doubled and
wrapped, although it contains a double-quote; the full row shows the unescaped
value, and differs from the row with that field escaped. -/
theorem c3_counterexample :
    exQBad.partName.data.contains '"' = true ∧
    (csvRowFields exQBad).get? 0 = some exQBad.partName ∧
    exQBad.partName ≠ quoteField exQBad.partName ∧
    csvRow exQBad = "He said \"hi\",Ch1,\"Q?\",\"1\",\"2\",\"3\",\"4\",A" := by decide

/-- C3 (amended): the export is the header row followed by one row per MCQ in
accumulated order; Question and the four Option fields are always quoted with
embedded double-quotes doubled, while Part, Chapter and Correct Answer are
emitted raw; provided partName and chapterTitle contain no double-quote, comma
or newline, exporting then parsing the CSV reproduces every field exactly,
including question and option fields with embedded quote characters. -/
theorem c3_csv_export (qs : List MCQ)
    (hplain : ∀ q ∈ qs, plainField q.partName ∧ plainField q.chapterTitle) :
    parseCSV (convertToCSV qs) = csvHeaders :: qs.map origFields :=
  parseCSV_convertToCSV qs hplain

/-- C3 witness: round trip at a concrete MCQ with embedded quotes and a comma
inside an option. -/
theorem c3_csv_export_witness :
    parseCSV (convertToCSV [exQGood]) = csvHeaders :: [exQGood].map origFields :=
  c3_csv_export [exQGood] (by decide)

/-- C4: when the Part Generation stage fails, the state machine returns to
READY_TO_GENERATE with the error recorded, currentPartIndex is not advanced,
the accumulated analysis and MCQ sequence are unchanged, and a following
successful call still generates the same part index. -/
theorem c4_failure_rollback (s : SessionState) (a : TextbookAnalysis) (p : Part)
    (msg : String) (ha : s.analysis = some a) (hidx : s.currentPartIndex < 4)
    (hp : a.parts.get? s.currentPartIndex = some p) (hmsg : msg ≠ "") :
    (generateNextPart (.error msg) s).status = AppStatus.READY_TO_GENERATE ∧
    (generateNextPart (.error msg) s).error = some msg ∧
    (generateNextPart (.error msg) s).currentPartIndex = s.currentPartIndex ∧
    (generateNextPart (.error msg) s).mcqs = s.mcqs ∧
    (generateNextPart (.error msg) s).analysis = s.analysis ∧
    (∀ raws : List RawMCQ,
      (generateNextPart (.ok (some raws)) (generateNextPart (.error msg) s)).mcqs
        = s.mcqs ++ stampMCQs s.currentPartIndex p.name raws ∧
      (generateNextPart (.ok (some raws)) (generateNextPart (.error msg) s)).currentPartIndex
        = s.currentPartIndex + 1) := by
  have hidx' : ¬ 4 ≤ s.currentPartIndex := by omega
  have hg : generatePartMCQs a s.currentPartIndex s.mcqs (.error msg) = .error msg := by
    unfold generatePartMCQs
    rw [hp]
  have hstep := generateNextPart_eq_err (.error msg) s a msg ha hidx' hg
  refine ⟨by rw [hstep], by rw [hstep]; simp [hmsg], by rw [hstep], by rw [hstep],
    by rw [hstep], ?_⟩
  intro raws
  have hg2 : generatePartMCQs a (generateNextPart (.error msg) s).currentPartIndex
      (generateNextPart (.error msg) s).mcqs (.ok (some raws))
      = .ok (stampMCQs s.currentPartIndex p.name raws) := by
    rw [hstep]
    exact generatePartMCQs_ok a s.currentPartIndex s.mcqs raws p hp
  have ha2 : (generateNextPart (.error msg) s).analysis = some a := by
    rw [hstep]; exact ha
  have hidx2 : ¬ 4 ≤ (generateNextPart (.error msg) s).currentPartIndex := by
    rw [hstep]; exact hidx'
  have hstep2 := generateNextPart_eq_ok (.ok (some raws))
    (generateNextPart (.error msg) s) a _ ha2 hidx2 hg2
  rw [hstep2, hstep]
  exact ⟨rfl, rfl⟩

/-- C4 witness: a failed call on a concrete ready session, then a successful
retry for the same part index 0. -/
theorem c4_failure_rollback_witness :
    (generateNextPart (.error "boom") exReady).status = AppStatus.READY_TO_GENERATE ∧
    (generateNextPart (.error "boom") exReady).error = some "boom" ∧
    (generateNextPart (.error "boom") exReady).currentPartIndex
      = exReady.currentPartIndex ∧
    (generateNextPart (.error "boom") exReady).mcqs = exReady.mcqs ∧
    (generateNextPart (.error "boom") exReady).analysis = exReady.analysis ∧
    (∀ raws : List RawMCQ,
      (generateNextPart (.ok (some raws)) (generateNextPart (.error "boom") exReady)).mcqs
        = exReady.mcqs ++ stampMCQs exReady.currentPartIndex "Part I" raws ∧
      (generateNextPart (.ok (some raws)) (generateNextPart (.error "boom") exReady)).currentPartIndex
        = exReady.currentPartIndex + 1) :=
  c4_failure_rollback exReady exAnalysis { name := "Part I", chapterTitles := ["Algebra"] }
    "boom" (by decide) (by decide) (by decide) (by decide)

/-- C5: a successful generateNextPart call appends the stamped batch in order,
counts exactly the records received, advances currentPartIndex by one, and
moves to COMPLETED exactly when the new index reaches 4; over any run of calls
from the session, the accumulated count is the initial count plus the sum of
the delivered batch sizes. -/
theorem c5_success_appends (s : SessionState) (a : TextbookAnalysis) (p : Part)
    (raws : List RawMCQ) (ha : s.analysis = some a) (hidx : s.currentPartIndex < 4)
    (hp : a.parts.get? s.currentPartIndex = some p) :
    (generateNextPart (.ok (some raws)) s).mcqs
      = s.mcqs ++ stampMCQs s.currentPartIndex p.name raws ∧
    (generateNextPart (.ok (some raws)) s).mcqs.length
      = s.mcqs.length + raws.length ∧
    (generateNextPart (.ok (some raws)) s).currentPartIndex
      = s.currentPartIndex + 1 ∧
    (generateNextPart (.ok (some raws)) s).status
      = (if 4 ≤ s.currentPartIndex + 1 then AppStatus.COMPLETED
         else AppStatus.READY_TO_GENERATE) ∧
    (a.parts.length = 4 →
      ∀ outcomes : List (CapOutcome (List RawMCQ)),
      s.currentPartIndex + outcomes.countP isOkSome ≤ 4 →
      (runGen outcomes s).mcqs.length
        = s.mcqs.length + (outcomes.map okBatchSize).sum) := by
  have hidx' : ¬ 4 ≤ s.currentPartIndex := by omega
  have hg : generatePartMCQs a s.currentPartIndex s.mcqs (.ok (some raws))
      = .ok (stampMCQs s.currentPartIndex p.name raws) :=
    generatePartMCQs_ok a s.currentPartIndex s.mcqs raws p hp
  have hstep := generateNextPart_eq_ok (.ok (some raws)) s a _ ha hidx' hg
  rw [hstep]
  refine ⟨rfl, ?_, rfl, rfl, ?_⟩
  · show (s.mcqs ++ stampMCQs s.currentPartIndex p.name raws).length
      = s.mcqs.length + raws.length
    rw [List.length_append, stampMCQs, stampFrom_length]
  · intro hparts outcomes hbound
    exact runGen_count outcomes s a ha hparts hbound

/-- C5 witness: one successful batch of two records on a concrete session. -/
theorem c5_success_appends_witness :
    (generateNextPart (.ok (some [exRaw1, exRaw2])) exReady).mcqs
      = exReady.mcqs ++ stampMCQs exReady.currentPartIndex "Part I" [exRaw1, exRaw2] ∧
    (generateNextPart (.ok (some [exRaw1, exRaw2])) exReady).mcqs.length
      = exReady.mcqs.length + 2 ∧
    (generateNextPart (.ok (some [exRaw1, exRaw2])) exReady).currentPartIndex
      = exReady.currentPartIndex + 1 ∧
    (generateNextPart (.ok (some [exRaw1, exRaw2])) exReady).status
      = (if 4 ≤ exReady.currentPartIndex + 1 then AppStatus.COMPLETED
         else AppStatus.READY_TO_GENERATE) ∧
    (exAnalysis.parts.length = 4 →
      ∀ outcomes : List (CapOutcome (List RawMCQ)),
      exReady.currentPartIndex + outcomes.countP isOkSome ≤ 4 →
      (runGen outcomes exReady).mcqs.length
        = exReady.mcqs.length + (outcomes.map okBatchSize).sum) :=
  c5_success_appends exReady exAnalysis { name := "Part I", chapterTitles := ["Algebra"] }
    [exRaw1, exRaw2] (by decide) (by decide) (by decide)

/-- C6: across every interleaving of complete (successful, failed, retried)
startAnalysis and generateNextPart operations from a fresh session, the ids of
the accumulated MCQs are pairwise distinct, and every id encodes a generating
part index below 4 together with the record's position in that call's batch. -/
theorem c6_ids_unique (ops : List GenOp) (fs : List FileData) :
    ((runOps ops { initState with files := fs }).mcqs.map MCQ.id).Nodup ∧
    ∀ m ∈ (runOps ops { initState with files := fs }).mcqs,
      ∃ k j, k < 4 ∧ m.id = mkId k j := by
  have h0 : IdOk { initState with files := fs } := by
    refine ⟨by simp [initState], by simp [initState], ?_⟩
    intro m hm
    simp [initState] at hm
  have h := IdOk_runOps ops _ h0
  refine ⟨h.1, ?_⟩
  intro m hm
  obtain ⟨k, j, hk, hid⟩ := h.2.2 m hm
  have hle := h.2.1
  exact ⟨k, j, by omega, hid⟩

/-- C7: for every parsed part-generation response, the service returns one
output record per parsed record in the same order and of the same count (short
batches included), each output record being the parsed record with exactly the
id and the resolved partName stamped on, independent of the previously
generated MCQs passed in. -/
theorem c7_stamping (a : TextbookAnalysis) (k : Nat) (ex ex2 : List MCQ)
    (raws : List RawMCQ) (p : Part) (hp : a.parts.get? k = some p) :
    generatePartMCQs a k ex (.ok (some raws)) = .ok (stampMCQs k p.name raws) ∧
    (stampMCQs k p.name raws).length = raws.length ∧
    (∀ (j : Nat) (m : RawMCQ), raws.get? j = some m →
      (stampMCQs k p.name raws).get? j = some
        { id := mkId k j, partName := p.name, chapterTitle := m.chapterTitle,
          question := m.question, options := m.options,
          correctAnswer := m.correctAnswer, topic := m.topic,
          difficulty := m.difficulty, explanation := m.explanation }) ∧
    generatePartMCQs a k ex2 (.ok (some raws))
      = generatePartMCQs a k ex (.ok (some raws)) := by
  refine ⟨generatePartMCQs_ok a k ex raws p hp, stampFrom_length k p.name raws 0,
    ?_, ?_⟩
  · intro j m hm
    show (stampFrom k p.name 0 raws).get? j = _
    rw [stampFrom_get? k p.name raws 0 j, hm]
    simp [stampOne]
  · rw [generatePartMCQs_ok a k ex2 raws p hp, generatePartMCQs_ok a k ex raws p hp]

/-- C7 witness at a concrete two-record batch for part index 0. -/
theorem c7_stamping_witness :
    generatePartMCQs exAnalysis 0 [] (.ok (some [exRaw1, exRaw2]))
      = .ok (stampMCQs 0 "Part I" [exRaw1, exRaw2]) ∧
    (stampMCQs 0 "Part I" [exRaw1, exRaw2]).length = 2 ∧
    (∀ (j : Nat) (m : RawMCQ), [exRaw1, exRaw2].get? j = some m →
      (stampMCQs 0 "Part I" [exRaw1, exRaw2]).get? j = some
        { id := mkId 0 j, partName := "Part I", chapterTitle := m.chapterTitle,
          question := m.question, options := m.options,
          correctAnswer := m.correctAnswer, topic := m.topic,
          difficulty := m.difficulty, explanation := m.explanation }) ∧
    generatePartMCQs exAnalysis 0 [exQGood] (.ok (some [exRaw1, exRaw2]))
      = generatePartMCQs exAnalysis 0 [] (.ok (some [exRaw1, exRaw2])) :=
  c7_stamping exAnalysis 0 [] [exQGood] [exRaw1, exRaw2]
    { name := "Part I", chapterTitles := ["Algebra"] } (by decide)

/-- C8: the chapter subset embedded in the part-generation instruction is
exactly the chapters of the analysis whose title occurs in the part's
chapterTitles, in the order in which they appear in the analysis chapter list. -/
theorem c8_prompt_chapters (a : TextbookAnalysis) (k : Nat) (p : Part)
    (_hp : a.parts.get? k = some p) :
    promptChapters a p
      = a.chapters.filter (fun c => decide (c.title ∈ p.chapterTitles)) ∧
    List.Sublist (promptChapters a p) a.chapters ∧
    (∀ c : Chapter,
      c ∈ promptChapters a p ↔ c ∈ a.chapters ∧ c.title ∈ p.chapterTitles) := by
  have heq : promptChapters a p
      = a.chapters.filter (fun c => decide (c.title ∈ p.chapterTitles)) := by
    unfold promptChapters
    simp [List.elem_eq_mem]
  refine ⟨heq, ?_, ?_⟩
  · rw [heq]
    exact List.filter_sublist a.chapters
  · intro c
    rw [heq]
    simp [List.mem_filter]

/-- C8 witness: part III of the concrete analysis selects exactly the Algebra
chapter. -/
theorem c8_prompt_chapters_witness :
    promptChapters exAnalysis { name := "Part III", chapterTitles := ["Algebra"] }
      = exAnalysis.chapters.filter
          (fun c => decide (c.title ∈ ["Algebra"])) ∧
    List.Sublist
      (promptChapters exAnalysis { name := "Part III", chapterTitles := ["Algebra"] })
      exAnalysis.chapters ∧
    (∀ c : Chapter,
      c ∈ promptChapters exAnalysis { name := "Part III", chapterTitles := ["Algebra"] }
        ↔ c ∈ exAnalysis.chapters ∧ c.title ∈ ["Algebra"]) :=
  c8_prompt_chapters exAnalysis 2 { name := "Part III", chapterTitles := ["Algebra"] }
    (by decide)

/-- C9 counterexample: for a file whose content is a data-URI header with an
empty payload, the code emits the entire original string, prefix included,
while the claim demands the content with the prefix through the separator
removed, which is empty. -/
theorem c9_counterexample :
    specPayload exFileEmptyPayload.base64 = "" ∧
    extractPayload exFileEmptyPayload.base64 = "data:text/plain;base64," ∧
    extractPayload exFileEmptyPayload.base64 ≠ specPayload exFileEmptyPayload.base64 ∧
    contentBlocks [exFileEmptyPayload]
      = [("text/plain", "data:text/plain;base64,")] := by decide

/-- C9 (amended): each block pairs the file MIME type with the extracted
payload; when the content is a prefix, a comma, and a non-empty comma-free
payload, exactly the payload is emitted; when the payload slot is empty the
whole content is emitted unchanged; and a content without any comma is emitted
unchanged. -/
theorem c9_payload_extraction (f : FileData) (pre pay : List Char)
    (hsplit : f.base64.data = pre ++ ',' :: pay)
    (hpre : ',' ∉ pre) (hpay : ',' ∉ pay) :
    (extractPayload f.base64 = if pay = [] then f.base64 else ⟨pay⟩) ∧
    contentBlocks [f] = [(f.type, extractPayload f.base64)] ∧
    (∀ g : FileData, ',' ∉ g.base64.data → extractPayload g.base64 = g.base64) := by
  refine ⟨?_, rfl, ?_⟩
  · unfold extractPayload extractPayloadL
    rw [hsplit, splitComma_append pre pay hpre, splitComma_no_comma pay hpay]
    show (⟨if pay = [] then pre ++ ',' :: pay else pay⟩ : String)
        = if pay = [] then f.base64 else ⟨pay⟩
    by_cases hpe : pay = []
    · subst hpe
      rw [if_pos rfl, if_pos rfl, ← hsplit]
    · rw [if_neg hpe, if_neg hpe]
  · intro g hg
    unfold extractPayload extractPayloadL
    rw [splitComma_no_comma g.base64.data hg]
    simp

/-- C9 witness: the concrete data-URL file yields its base64 payload. -/
theorem c9_payload_extraction_witness :
    (extractPayload exFile.base64
      = if ("QUJD".data = ([] : List Char)) then exFile.base64 else "QUJD") ∧
    contentBlocks [exFile] = [(exFile.type, extractPayload exFile.base64)] ∧
    (∀ g : FileData, ',' ∉ g.base64.data → extractPayload g.base64 = g.base64) :=
  c9_payload_extraction exFile "data:application/pdf;base64".data "QUJD".data
    (by decide) (by decide) (by decide)

/-- C10 counterexample: for content with two commas and a non-empty substring
after the first, the code emits only the segment between the first and second
commas, not the whole substring after the first comma. -/
theorem c10_counterexample :
    extractPayload "a,b,c" = "b" ∧
    specPayload "a,b,c" = "b,c" ∧
    extractPayload "a,b,c" ≠ specPayload "a,b,c" := by decide

/-- C10 (amended): the extraction emits the segment strictly between the first
comma and the second comma or the end of the content when that segment is
non-empty, and the entire original string when the content has no comma or that
segment is empty; everything from the second comma on is dropped. -/
theorem c10_segment_between_commas (s : String) :
    (',' ∉ s.data → extractPayload s = s) ∧
    (∀ pre mid, s.data = pre ++ ',' :: mid → ',' ∉ pre → ',' ∉ mid →
      extractPayload s = if mid = [] then s else ⟨mid⟩) ∧
    (∀ pre mid post, s.data = pre ++ ',' :: (mid ++ ',' :: post) →
      ',' ∉ pre → ',' ∉ mid →
      extractPayload s = if mid = [] then s else ⟨mid⟩) := by
  refine ⟨?_, ?_, ?_⟩
  · intro hnc
    unfold extractPayload extractPayloadL
    rw [splitComma_no_comma s.data hnc]
    simp
  · intro pre mid hsplit hpre hmid
    unfold extractPayload extractPayloadL
    rw [hsplit, splitComma_append pre mid hpre, splitComma_no_comma mid hmid]
    show (⟨if mid = [] then pre ++ ',' :: mid else mid⟩ : String)
        = if mid = [] then s else ⟨mid⟩
    by_cases hpe : mid = []
    · subst hpe
      rw [if_pos rfl, if_pos rfl, ← hsplit]
    · rw [if_neg hpe, if_neg hpe]
  · intro pre mid post hsplit hpre hmid
    unfold extractPayload extractPayloadL
    rw [hsplit, splitComma_append pre (mid ++ ',' :: post) hpre,
      splitComma_append mid post hmid]
    show (⟨if mid = [] then pre ++ ',' :: (mid ++ ',' :: post) else mid⟩ : String)
        = if mid = [] then s else ⟨mid⟩
    by_cases hpe : mid = []
    · subst hpe
      rw [if_pos rfl, if_pos rfl, ← hsplit]
    · rw [if_neg hpe, if_neg hpe]

/-- C10 witness at the concrete two-comma content. -/
theorem c10_segment_between_commas_witness :
    extractPayload "a,b,c" = if ("b".data = ([] : List Char)) then "a,b,c" else "b" :=
  ((c10_segment_between_commas "a,b,c").2.2 "a".data "b".data "c".data
    (by decide) (by decide) (by decide))

end MCQGen

